import Mathlib

/-!
Shallow embedding of the powerlab-toolkit repository:
`wiregauge_practice/wire_gauge_selector copy.py` (gauge tables, gauge
selection, voltage drop, escalation loop) and
`Documents/powerlab-toolkit/modules/thermal.py` (thermal formulas).
Python floats are modelled as exact rationals (ℚ); the arithmetic in the
source is plain +, *, /, so the rational model reproduces it exactly.
-/

namespace WireGauge

/-- A gauge identifier: either an integer AWG size (dict key `14`, `12`, ...)
or a labeled kcmil-class size (dict key `'1/0'`, ..., `'4/0'`). -/
inductive Gauge where
  | awg : Nat → Gauge
  | kcmil : String → Gauge
deriving DecidableEq, Repr

/-- Association-list lookup, mirroring Python dict indexing `tbl[g]`
(returns `none` where Python would raise `KeyError`). -/
def lookupG {α : Type} (g : Gauge) : List (Gauge × α) → Option α
  | [] => none
  | (g', v) :: rest => if g' = g then some v else lookupG g rest

/-- Lowercase one character, as Python `str.lower` does on ASCII. -/
def lowerChar (c : Char) : Char :=
  if 'A' ≤ c ∧ c ≤ 'Z' then Char.ofNat (c.toNat + 32) else c

/-- Python `material.lower()`. All material strings of interest are ASCII,
where Python's `str.lower` is exactly per-character ASCII lowercasing. -/
def pyLower (s : String) : String := ⟨s.data.map lowerChar⟩

/-- Python string `<`: lexicographic comparison of code points. -/
def charListLt : List Char → List Char → Bool
  | _, [] => false
  | [], _ :: _ => true
  | a :: as, b :: bs => if a < b then true else if b < a then false else charListLt as bs

/-- Python string `<` on `String`. -/
def strLt (a b : String) : Bool := charListLt a.data b.data

/-- Insertion by a boolean `≤`; `sortBy` below is a stable sort with it,
like Python's `sorted`. -/
def insertBy {α : Type} (le : α → α → Bool) (a : α) : List α → List α
  | [] => [a]
  | b :: l => if le a b then a :: b :: l else b :: insertBy le a l

/-- Stable insertion sort, modelling Python `sorted(l)` for the given order. -/
def sortBy {α : Type} (le : α → α → Bool) : List α → List α
  | [] => []
  | a :: l => insertBy le a (sortBy le l)

/-- Tuple indexing `triple[t]` for `t` in {0,1,2} (60°C, 75°C, 90°C). -/
def tempGet : ℚ × ℚ × ℚ → Fin 3 → ℚ
  | (a, _, _), 0 => a
  | (_, b, _), 1 => b
  | (_, _, c), 2 => c

/-- `ampacity_cu`: NEC copper ampacity table, keys in insertion order. -/
def ampacity_cu : List (Gauge × (ℚ × ℚ × ℚ)) :=
  [(.awg 14, (15, 20, 25)),
   (.awg 12, (20, 25, 30)),
   (.awg 10, (30, 35, 40)),
   (.awg 8, (40, 50, 55)),
   (.awg 6, (55, 65, 75)),
   (.awg 4, (70, 85, 95)),
   (.awg 3, (85, 100, 110)),
   (.awg 2, (95, 115, 130)),
   (.awg 1, (110, 130, 145)),
   (.kcmil "1/0", (125, 150, 170)),
   (.kcmil "2/0", (145, 175, 195)),
   (.kcmil "3/0", (165, 200, 225)),
   (.kcmil "4/0", (195, 230, 260))]

/-- `ampacity_al`: NEC aluminum ampacity table. -/
def ampacity_al : List (Gauge × (ℚ × ℚ × ℚ)) :=
  [(.awg 12, (15, 20, 25)),
   (.awg 10, (25, 30, 35)),
   (.awg 8, (35, 40, 45)),
   (.awg 6, (40, 50, 55)),
   (.awg 4, (55, 65, 75)),
   (.awg 3, (65, 75, 85)),
   (.awg 2, (75, 90, 100)),
   (.awg 1, (85, 100, 115)),
   (.kcmil "1/0", (100, 120, 135)),
   (.kcmil "2/0", (115, 135, 150)),
   (.kcmil "3/0", (130, 155, 175)),
   (.kcmil "4/0", (150, 180, 205))]

/-- `resistance_cu`: DC resistance in ohms per 1000 ft for copper. -/
def resistance_cu : List (Gauge × ℚ) :=
  [(.awg 14, 2.525),
   (.awg 12, 1.588),
   (.awg 10, 0.999),
   (.awg 8, 0.628),
   (.awg 6, 0.395),
   (.awg 4, 0.248),
   (.awg 3, 0.197),
   (.awg 2, 0.156),
   (.awg 1, 0.124),
   (.kcmil "1/0", 0.099),
   (.kcmil "2/0", 0.078),
   (.kcmil "3/0", 0.062),
   (.kcmil "4/0", 0.049)]

/-- `resistance_al`: DC resistance in ohms per 1000 ft for aluminum. -/
def resistance_al : List (Gauge × ℚ) :=
  [(.awg 12, 2.659),
   (.awg 10, 1.671),
   (.awg 8, 1.052),
   (.awg 6, 0.661),
   (.awg 4, 0.416),
   (.awg 3, 0.330),
   (.awg 2, 0.262),
   (.awg 1, 0.208),
   (.kcmil "1/0", 0.165),
   (.kcmil "2/0", 0.131),
   (.kcmil "3/0", 0.104),
   (.kcmil "4/0", 0.082)]

/-- `get_ampacity_table(material)`:
`ampacity_cu if material.lower() == 'copper' else ampacity_al`. -/
def get_ampacity_table (material : String) : List (Gauge × (ℚ × ℚ × ℚ)) :=
  if pyLower material = "copper" then ampacity_cu else ampacity_al

/-- `get_resistance_table(material)`:
`resistance_cu if material.lower() == 'copper' else resistance_al`. -/
def get_resistance_table (material : String) : List (Gauge × ℚ) :=
  if pyLower material = "copper" then resistance_cu else resistance_al

/-- `sorted(ints, reverse=True)` on the integer AWG keys. -/
def sortIntsDesc (l : List Nat) : List Nat :=
  sortBy (fun a b => decide (b ≤ a)) l

/-- `sorted(kcmils)` on the string keys (lexicographic ascending). -/
def sortStrsAsc (l : List String) : List String :=
  sortBy (fun a b => !strLt b a) l

/-- `get_gauge_options(material)`: integer keys sorted descending, then
string keys sorted ascending — smallest wire to largest. -/
def get_gauge_options (material : String) : List Gauge :=
  let amp_table := get_ampacity_table material
  let ints := (amp_table.map Prod.fst).filterMap
    (fun g => match g with | .awg n => some n | .kcmil _ => none)
  let kcmils := (amp_table.map Prod.fst).filterMap
    (fun g => match g with | .awg _ => none | .kcmil s => some s)
  (sortIntsDesc ints).map .awg ++ (sortStrsAsc kcmils).map .kcmil

/-- The scan inside `find_min_gauge`: walk the option list, look each gauge
up in the ampacity table, return the first whose ampacity at `t` is
`>= required` together with that ampacity. A gauge missing from the table
is skipped; in the source that lookup is `amp_table[awg]` on a key taken
from the table itself, so the missing case never arises (see
`options_have_ampacity`). -/
def findMinAux (required : ℚ) (t : Fin 3) (tbl : List (Gauge × (ℚ × ℚ × ℚ))) :
    List Gauge → Option (Gauge × ℚ)
  | [] => none
  | g :: rest =>
    match lookupG g tbl with
    | some triple =>
      if required ≤ tempGet triple t then some (g, tempGet triple t)
      else findMinAux required t tbl rest
    | none => findMinAux required t tbl rest

/-- `find_min_gauge(required_ampacity, temp_idx, material)`; the Python
`return None, None` at the end is the `none` value here. -/
def find_min_gauge (required : ℚ) (t : Fin 3) (material : String) :
    Option (Gauge × ℚ) :=
  findMinAux required t (get_ampacity_table material) (get_gauge_options material)

/-- `voltage_drop(current, length_ft, awg, voltage, material)`: `none` is the
Python `return None, None` for a gauge absent from the resistance table;
otherwise the pair `(vd_volts, vd_percent)` with
`vd_volts = 2*current*length_ft*r/1000` and
`vd_percent = (vd_volts/voltage)*100 if voltage != 0 else 0`. -/
def voltage_drop (current length_ft : ℚ) (awg : Gauge) (voltage : ℚ)
    (material : String) : Option (ℚ × ℚ) :=
  match lookupG awg (get_resistance_table material) with
  | none => none
  | some r =>
    let vd_volts := 2 * current * length_ft * r / 1000
    let vd_percent := if voltage ≠ 0 then vd_volts / voltage * 100 else 0
    some (vd_volts, vd_percent)

/-- The `while vd_percent > vd_max` escalation loop of `main`, from current
gauge `g` with current drop percentage `p`; `rest` is the portion of
`get_gauge_options material` strictly after `g` (the gauge options have no
duplicates — `gauge_options_nodup` — so `options.index(current_awg)` always
finds the current position and `options[idx+1]` is the head of `rest`).
Returns the final gauge, the final drop percentage, and the number of loop
iterations executed. The `none` branch of `voltage_drop` ends the loop; for
gauges taken from the option list it is unreachable (`options_have_resistance`). -/
def escalate (current length_ft voltage vd_max : ℚ) (material : String) :
    Gauge → ℚ → List Gauge → Gauge × ℚ × Nat
  | g, p, rest =>
    if vd_max < p then
      match rest with
      | [] => (g, p, 1)
      | g' :: rest' =>
        match voltage_drop current length_ft g' voltage material with
        | some (_, p') =>
          let r := escalate current length_ft voltage vd_max material g' p' rest'
          (r.1, r.2.1, r.2.2 + 1)
        | none => (g', p, 1)
    else (g, p, 0)

/-- The ampacity of gauge `g` at temperature index `t` for `material`, as a
total function for stating specifications (`0` for a gauge not in the table;
never used at such a gauge). -/
def ampAt (material : String) (g : Gauge) (t : Fin 3) : ℚ :=
  ((lookupG g (get_ampacity_table material)).map (fun tr => tempGet tr t)).getD 0

/-- The resistance of gauge `g` for `material`, as a total function for
stating specifications (`0` for a gauge not in the table). -/
def resAt (material : String) (g : Gauge) : ℚ :=
  (lookupG g (get_resistance_table material)).getD 0

end WireGauge

namespace Thermal

/-- `junction_temp_simple(Ta, P_total, Rth_ja) = Ta + P_total * Rth_ja`. -/
def junction_temp_simple (Ta P_total Rth_ja : ℚ) : ℚ :=
  Ta + P_total * Rth_ja

/-- `junction_temp_detailed(Ta, P_total, Rth_jc, Rth_cs, Rth_sa)
= Ta + P_total * (Rth_jc + Rth_cs + Rth_sa)`. -/
def junction_temp_detailed (Ta P_total Rth_jc Rth_cs Rth_sa : ℚ) : ℚ :=
  Ta + P_total * (Rth_jc + Rth_cs + Rth_sa)

/-- `safety_margin(Tj, Tj_max=150) = Tj_max - Tj` (the default argument is
applied by callers; the function body only subtracts). -/
def safety_margin (Tj Tj_max : ℚ) : ℚ :=
  Tj_max - Tj

end Thermal

namespace WireGauge

/-- The escalation step relation between gauges: ampacity never decreases
and resistance strictly decreases from `g1` to the larger wire `g2`. -/
def gaugeStep (material : String) (g1 g2 : Gauge) : Prop :=
  (∀ t : Fin 3, ampAt material g1 t ≤ ampAt material g2 t) ∧
  resAt material g2 < resAt material g1

end WireGauge

open WireGauge Thermal

theorem options_have_ampacity (material : String)
    (hm : material = "copper" ∨ material = "aluminum") :
    ∀ g ∈ get_gauge_options material,
      (lookupG g (get_ampacity_table material)).isSome := by
  rcases hm with h | h <;> subst h <;> decide

theorem options_have_resistance (material : String)
    (hm : material = "copper" ∨ material = "aluminum") :
    ∀ g ∈ get_gauge_options material,
      (lookupG g (get_resistance_table material)).isSome := by
  rcases hm with h | h <;> subst h <;> decide

theorem gauge_options_nodup (material : String)
    (hm : material = "copper" ∨ material = "aluminum") :
    (get_gauge_options material).Nodup := by
  rcases hm with h | h <;> subst h <;> decide

/-- C5: `gauge_options` lists exactly the ampacity-table keys, integer AWG
sizes sorted descending then labeled sizes sorted ascending; the two
materials' sequences agree except that aluminum omits 14 AWG. -/
theorem gauge_options_ordered :
    get_gauge_options "copper" =
      [.awg 14, .awg 12, .awg 10, .awg 8, .awg 6, .awg 4, .awg 3, .awg 2,
       .awg 1, .kcmil "1/0", .kcmil "2/0", .kcmil "3/0", .kcmil "4/0"] ∧
    get_gauge_options "aluminum" =
      [.awg 12, .awg 10, .awg 8, .awg 6, .awg 4, .awg 3, .awg 2,
       .awg 1, .kcmil "1/0", .kcmil "2/0", .kcmil "3/0", .kcmil "4/0"] ∧
    get_gauge_options "copper" = .awg 14 :: get_gauge_options "aluminum" ∧
    (get_gauge_options "copper").Perm
      ((get_ampacity_table "copper").map Prod.fst) ∧
    (get_gauge_options "aluminum").Perm
      ((get_ampacity_table "aluminum").map Prod.fst) := by
  refine ⟨by decide, by decide, by decide, ?_, ?_⟩
  · have h : get_gauge_options "copper" =
        (get_ampacity_table "copper").map Prod.fst := by decide
    exact h ▸ List.Perm.refl _
  · have h : get_gauge_options "aluminum" =
        (get_ampacity_table "aluminum").map Prod.fst := by decide
    exact h ▸ List.Perm.refl _

/-- C6: any material string whose lowercasing is not `"copper"` (including
`"aluminum"` and every unrecognized string) silently selects the aluminum
tables; for every input string the lookup functions return one of the two
tables, so no invalid-material error is ever reported. -/
theorem material_fallback_to_aluminum (s : String)
    (h : pyLower s ≠ "copper") :
    (get_ampacity_table s = ampacity_al ∧
      get_resistance_table s = resistance_al) ∧
    ∀ s' : String,
      (get_ampacity_table s' = ampacity_cu ∨ get_ampacity_table s' = ampacity_al) ∧
      (get_resistance_table s' = resistance_cu ∨
        get_resistance_table s' = resistance_al) := by
  refine ⟨⟨?_, ?_⟩, ?_⟩
  · simp [get_ampacity_table, h]
  · simp [get_resistance_table, h]
  · intro s'
    by_cases h' : pyLower s' = "copper" <;>
      simp [get_ampacity_table, get_resistance_table, h']

theorem material_fallback_to_aluminum_witness :
    pyLower "aluminum" ≠ "copper" ∧
    ((get_ampacity_table "aluminum" = ampacity_al ∧
        get_resistance_table "aluminum" = resistance_al) ∧
      ∀ s' : String,
        (get_ampacity_table s' = ampacity_cu ∨
          get_ampacity_table s' = ampacity_al) ∧
        (get_resistance_table s' = resistance_cu ∨
          get_resistance_table s' = resistance_al)) :=
  ⟨by decide, material_fallback_to_aluminum "aluminum" (by decide)⟩

/-- C8: with required ampacity 25 (a 20 A continuous load after the caller's
125 % factor) at temperature index 1 (75 °C) on copper, the minimum gauge is
12 AWG with allowed ampacity 25: the `25 ≥ 25` threshold passes at 12 AWG. -/
theorem scenario_continuous_20A_copper :
    find_min_gauge 25 1 "copper" = some (.awg 12, 25) := by decide

/-- C9: `safety_margin` is exactly `Tj_max - Tj`, with negative results
(junction temperature above the rated maximum) returned like any other. -/
theorem safety_margin_exact :
    (∀ Tj Tj_max : ℚ, safety_margin Tj Tj_max = Tj_max - Tj) ∧
    safety_margin 160 150 = -10 := by
  refine ⟨fun _ _ => rfl, ?_⟩
  norm_num [safety_margin]

/-- C3: `voltage_drop` returns the round-trip drop
`2 * current * length_ft * r / 1000` and the percentage
`100 * drop_volts / voltage`, with the percentage forced to `0` when the
voltage is `0` so the division is never performed with a zero divisor. -/
theorem voltage_drop_formula (current length_ft voltage : ℚ) (material : String)
    (g : Gauge) (r : ℚ)
    (hr : lookupG g (get_resistance_table material) = some r) :
    voltage_drop current length_ft g voltage material =
      some (2 * current * length_ft * r / 1000,
        if voltage = 0 then 0
        else 100 * (2 * current * length_ft * r / 1000) / voltage) := by
  simp only [voltage_drop, hr]
  by_cases hv : voltage = 0
  · simp [hv]
  · simp only [hv, if_neg, ite_false, ne_eq, not_false_eq_true, ite_true]
    congr 1
    exact Prod.ext rfl (by ring)

theorem voltage_drop_formula_witness :
    lookupG (Gauge.awg 12) (get_resistance_table "copper") = some 1.588 ∧
    voltage_drop 20 150 (.awg 12) 120 "copper" =
      some (2 * 20 * 150 * (1.588 : ℚ) / 1000,
        if (120 : ℚ) = 0 then 0
        else 100 * (2 * 20 * 150 * (1.588 : ℚ) / 1000) / 120) :=
  ⟨rfl, voltage_drop_formula 20 150 120 "copper" (.awg 12) 1.588 rfl⟩

/-- C7: every gauge in a material's escalation list has a resistance entry,
so for such gauges `voltage_drop` never takes its missing-gauge branch and
the `(None, None)` return is unreachable. -/
theorem options_resistance_covered (material : String)
    (hm : material = "copper" ∨ material = "aluminum") :
    ∀ g ∈ get_gauge_options material,
      (lookupG g (get_resistance_table material)).isSome ∧
      ∀ current length_ft voltage : ℚ,
        (voltage_drop current length_ft g voltage material).isSome := by
  intro g hg
  have h := options_have_resistance material hm g hg
  refine ⟨h, ?_⟩
  intro current length_ft voltage
  obtain ⟨r, hr⟩ := Option.isSome_iff_exists.mp h
  simp [voltage_drop, hr]

theorem options_resistance_covered_witness :
    (lookupG (Gauge.awg 14) (get_resistance_table "copper")).isSome ∧
    ∀ current length_ft voltage : ℚ,
      (voltage_drop current length_ft (Gauge.awg 14) voltage "copper").isSome :=
  options_resistance_covered "copper" (Or.inl rfl) (.awg 14) (by decide)

theorem findMinAux_some (required : ℚ) (t : Fin 3)
    (tbl : List (Gauge × (ℚ × ℚ × ℚ))) :
    ∀ (l : List Gauge) (g : Gauge) (a : ℚ),
      findMinAux required t tbl l = some (g, a) →
      ∃ pre post, l = pre ++ g :: post ∧
        (∀ g' ∈ pre, ∀ tr, lookupG g' tbl = some tr →
          tempGet tr t < required) ∧
        ∃ tr, lookupG g tbl = some tr ∧ a = tempGet tr t ∧ required ≤ a := by
  intro l
  induction l with
  | nil => intro g a h; simp [findMinAux] at h
  | cons x rest ih =>
    intro g a h
    rw [findMinAux] at h
    split at h
    · rename_i triple hx
      by_cases hreq : required ≤ tempGet triple t
      · rw [if_pos hreq] at h
        obtain ⟨hg, ha⟩ := Prod.mk.inj (Option.some.inj h)
        subst hg
        exact ⟨[], rest, rfl, by simp, triple, hx, ha.symm, ha ▸ hreq⟩
      · rw [if_neg hreq] at h
        obtain ⟨pre, post, hl, hpre, tr, htr, ha, hge⟩ := ih g a h
        refine ⟨x :: pre, post, by rw [hl]; rfl, ?_, tr, htr, ha, hge⟩
        intro g' hg' tr' htr'
        rcases List.mem_cons.mp hg' with rfl | hmem
        · rw [hx] at htr'
          obtain rfl := Option.some.inj htr'
          exact lt_of_not_le hreq
        · exact hpre g' hmem tr' htr'
    · rename_i hx
      obtain ⟨pre, post, hl, hpre, tr, htr, ha, hge⟩ := ih g a h
      refine ⟨x :: pre, post, by rw [hl]; rfl, ?_, tr, htr, ha, hge⟩
      intro g' hg' tr' htr'
      rcases List.mem_cons.mp hg' with rfl | hmem
      · rw [hx] at htr'; exact absurd htr' (by simp)
      · exact hpre g' hmem tr' htr'

theorem findMinAux_none (required : ℚ) (t : Fin 3)
    (tbl : List (Gauge × (ℚ × ℚ × ℚ))) :
    ∀ l : List Gauge, findMinAux required t tbl l = none →
      ∀ g ∈ l, ∀ tr, lookupG g tbl = some tr → tempGet tr t < required := by
  intro l
  induction l with
  | nil => intro _ g hg; exact absurd hg (List.not_mem_nil g)
  | cons x rest ih =>
    intro h g hg tr htr
    rw [findMinAux] at h
    split at h
    · rename_i triple hx
      by_cases hreq : required ≤ tempGet triple t
      · rw [if_pos hreq] at h; exact absurd h (by simp)
      · rw [if_neg hreq] at h
        rcases List.mem_cons.mp hg with rfl | hmem
        · rw [hx] at htr
          obtain rfl := Option.some.inj htr
          exact lt_of_not_le hreq
        · exact ih h g hmem tr htr
    · rename_i hx
      rcases List.mem_cons.mp hg with rfl | hmem
      · rw [hx] at htr; exact absurd htr (by simp)
      · exact ih h g hmem tr htr

/-- C1: `find_min_gauge` returns the first gauge in escalation order whose
ampacity at the given temperature index reaches the required ampacity,
paired with that ampacity; every strictly earlier gauge falls short; and
when no gauge qualifies it returns `none` (Python's `(None, None)`). -/
theorem find_min_gauge_first_fit (required : ℚ) (t : Fin 3) (material : String)
    (hm : material = "copper" ∨ material = "aluminum") :
    (∀ g a, find_min_gauge required t material = some (g, a) →
      ∃ pre post, get_gauge_options material = pre ++ g :: post ∧
        a = ampAt material g t ∧ required ≤ a ∧
        ∀ g' ∈ pre, ampAt material g' t < required) ∧
    (find_min_gauge required t material = none →
      ∀ g ∈ get_gauge_options material, ampAt material g t < required) := by
  constructor
  · intro g a h
    obtain ⟨pre, post, hl, hpre, tr, htr, ha, hge⟩ :=
      findMinAux_some required t (get_ampacity_table material)
        (get_gauge_options material) g a h
    refine ⟨pre, post, hl, ?_, hge, ?_⟩
    · rw [ampAt, htr]; simpa using ha
    · intro g' hg'
      have hmem : g' ∈ get_gauge_options material := by
        rw [hl]; exact List.mem_append_left _ hg'
      obtain ⟨tr', htr'⟩ := Option.isSome_iff_exists.mp
        (options_have_ampacity material hm g' hmem)
      have hlt := hpre g' hg' tr' htr'
      rw [ampAt, htr']; simpa using hlt
  · intro h g hg
    obtain ⟨tr, htr⟩ := Option.isSome_iff_exists.mp
      (options_have_ampacity material hm g hg)
    have hlt := findMinAux_none required t (get_ampacity_table material)
      (get_gauge_options material) h g hg tr htr
    rw [ampAt, htr]; simpa using hlt

theorem find_min_gauge_first_fit_witness :
    (∀ g a, find_min_gauge 25 1 "copper" = some (g, a) →
      ∃ pre post, get_gauge_options "copper" = pre ++ g :: post ∧
        a = ampAt "copper" g 1 ∧ (25 : ℚ) ≤ a ∧
        ∀ g' ∈ pre, ampAt "copper" g' 1 < 25) ∧
    (find_min_gauge 25 1 "copper" = none →
      ∀ g ∈ get_gauge_options "copper", ampAt "copper" g 1 < 25) :=
  find_min_gauge_first_fit 25 1 "copper" (Or.inl rfl)

theorem escalate_bound (current length_ft voltage vd_max : ℚ)
    (material : String) :
    ∀ (rest : List Gauge) (g : Gauge) (p : ℚ),
      (∀ g' ∈ rest, (lookupG g' (get_resistance_table material)).isSome) →
      (escalate current length_ft voltage vd_max material g p rest).2.2 ≤
          rest.length + 1 ∧
        (vd_max < (escalate current length_ft voltage vd_max material g p rest).2.1 →
          some (escalate current length_ft voltage vd_max material g p rest).1 =
            (g :: rest).getLast?) := by
  intro rest
  induction rest with
  | nil =>
    intro g p _
    rw [escalate]
    by_cases hp : vd_max < p
    · rw [if_pos hp]
      exact ⟨le_refl _, fun _ => rfl⟩
    · rw [if_neg hp]
      exact ⟨Nat.zero_le _, fun hgt => absurd hgt hp⟩
  | cons g' rest' ih =>
    intro g p hres
    rw [escalate]
    by_cases hp : vd_max < p
    · rw [if_pos hp]
      obtain ⟨r, hr⟩ := Option.isSome_iff_exists.mp
        (hres g' (List.mem_cons_self g' rest'))
      have hvd : ∃ pr,
          voltage_drop current length_ft g' voltage material = some pr :=
        Option.isSome_iff_exists.mp (by simp [voltage_drop, hr])
      obtain ⟨⟨dv, dp⟩, hvd⟩ := hvd
      rw [hvd]
      have ih' := ih g' dp (fun x hx => hres x (List.mem_cons_of_mem _ hx))
      refine ⟨?_, ?_⟩
      · simpa [List.length_cons] using Nat.succ_le_succ ih'.1
      · intro hgt
        rw [List.getLast?_cons_cons]
        exact ih'.2 hgt
    · rw [if_neg hp]
      exact ⟨Nat.zero_le _, fun hgt => absurd hgt hp⟩

/-- C2: started at any position of the escalation order (in particular at the
gauge chosen by the minimum-ampacity search), the loop consumes only the
strict suffix after that position, runs at most
`len(gauge_options) - start_index` iterations, and if it ends with the drop
percentage still above the limit then it stopped at the largest gauge of the
table (the `VoltageDropLimitExceeded` outcome). -/
theorem escalation_loop_monotone_terminates
    (current length_ft voltage vd_max p : ℚ) (material : String)
    (hm : material = "copper" ∨ material = "aluminum")
    (pre : List Gauge) (g : Gauge) (rest : List Gauge)
    (hsplit : get_gauge_options material = pre ++ g :: rest) :
    (escalate current length_ft voltage vd_max material g p rest).2.2 ≤
        (get_gauge_options material).length - pre.length ∧
      (vd_max < (escalate current length_ft voltage vd_max material g p rest).2.1 →
        some (escalate current length_ft voltage vd_max material g p rest).1 =
          (get_gauge_options material).getLast?) := by
  have hres : ∀ g' ∈ rest,
      (lookupG g' (get_resistance_table material)).isSome := by
    intro g' hg'
    refine options_have_resistance material hm g' ?_
    rw [hsplit]
    exact List.mem_append_right _ (List.mem_cons_of_mem _ hg')
  have h := escalate_bound current length_ft voltage vd_max material rest g p hres
  have hlen : (get_gauge_options material).length =
      pre.length + (rest.length + 1) := by
    rw [hsplit]; simp [List.length_append]
  refine ⟨?_, ?_⟩
  · rw [hlen]
    have := h.1
    omega
  · intro hgt
    rw [hsplit, List.getLast?_append_cons]
    exact h.2 hgt

theorem escalation_loop_monotone_terminates_witness :
    (escalate 20 150 120 3 "copper" (.awg 12) 7.94
        [.awg 10, .awg 8, .awg 6, .awg 4, .awg 3, .awg 2, .awg 1,
         .kcmil "1/0", .kcmil "2/0", .kcmil "3/0", .kcmil "4/0"]).2.2 ≤
        (get_gauge_options "copper").length - [Gauge.awg 14].length ∧
      (3 < (escalate 20 150 120 3 "copper" (.awg 12) 7.94
          [.awg 10, .awg 8, .awg 6, .awg 4, .awg 3, .awg 2, .awg 1,
           .kcmil "1/0", .kcmil "2/0", .kcmil "3/0", .kcmil "4/0"]).2.1 →
        some (escalate 20 150 120 3 "copper" (.awg 12) 7.94
          [.awg 10, .awg 8, .awg 6, .awg 4, .awg 3, .awg 2, .awg 1,
           .kcmil "1/0", .kcmil "2/0", .kcmil "3/0", .kcmil "4/0"]).1 =
          (get_gauge_options "copper").getLast?) :=
  escalation_loop_monotone_terminates 20 150 120 3 7.94 "copper" (Or.inl rfl)
    [.awg 14] (.awg 12)
    [.awg 10, .awg 8, .awg 6, .awg 4, .awg 3, .awg 2, .awg 1,
     .kcmil "1/0", .kcmil "2/0", .kcmil "3/0", .kcmil "4/0"] (by decide)

theorem pairwise_and {α : Type} {R S : α → α → Prop} :
    ∀ {l : List α}, l.Pairwise R → l.Pairwise S →
      l.Pairwise (fun a b => R a b ∧ S a b)
  | [], _, _ => List.Pairwise.nil
  | _ :: _, hR, hS => by
    rcases List.pairwise_cons.mp hR with ⟨hRa, hRl⟩
    rcases List.pairwise_cons.mp hS with ⟨hSa, hSl⟩
    exact List.Pairwise.cons (fun b hb => ⟨hRa b hb, hSa b hb⟩)
      (pairwise_and hRl hSl)

theorem res_pairwise_cu : (get_gauge_options "copper").Pairwise
    (fun g1 g2 => resAt "copper" g2 < resAt "copper" g1) := by
  have hopt : get_gauge_options "copper" =
      [.awg 14, .awg 12, .awg 10, .awg 8, .awg 6, .awg 4, .awg 3, .awg 2,
       .awg 1, .kcmil "1/0", .kcmil "2/0", .kcmil "3/0", .kcmil "4/0"] := by
    decide
  haveI : IsTrans Gauge (fun g1 g2 => resAt "copper" g2 < resAt "copper" g1) :=
    ⟨fun _ _ _ h1 h2 => lt_trans h2 h1⟩
  rw [hopt, ← List.chain'_iff_pairwise]
  simp only [List.chain'_cons, List.chain'_singleton, and_true]
  norm_num [show resAt "copper" (.awg 14) = 2.525 from rfl,
    show resAt "copper" (.awg 12) = 1.588 from rfl,
    show resAt "copper" (.awg 10) = 0.999 from rfl,
    show resAt "copper" (.awg 8) = 0.628 from rfl,
    show resAt "copper" (.awg 6) = 0.395 from rfl,
    show resAt "copper" (.awg 4) = 0.248 from rfl,
    show resAt "copper" (.awg 3) = 0.197 from rfl,
    show resAt "copper" (.awg 2) = 0.156 from rfl,
    show resAt "copper" (.awg 1) = 0.124 from rfl,
    show resAt "copper" (.kcmil "1/0") = 0.099 from rfl,
    show resAt "copper" (.kcmil "2/0") = 0.078 from rfl,
    show resAt "copper" (.kcmil "3/0") = 0.062 from rfl,
    show resAt "copper" (.kcmil "4/0") = 0.049 from rfl]

theorem res_pairwise_al : (get_gauge_options "aluminum").Pairwise
    (fun g1 g2 => resAt "aluminum" g2 < resAt "aluminum" g1) := by
  have hopt : get_gauge_options "aluminum" =
      [.awg 12, .awg 10, .awg 8, .awg 6, .awg 4, .awg 3, .awg 2,
       .awg 1, .kcmil "1/0", .kcmil "2/0", .kcmil "3/0", .kcmil "4/0"] := by
    decide
  haveI : IsTrans Gauge (fun g1 g2 => resAt "aluminum" g2 < resAt "aluminum" g1) :=
    ⟨fun _ _ _ h1 h2 => lt_trans h2 h1⟩
  rw [hopt, ← List.chain'_iff_pairwise]
  simp only [List.chain'_cons, List.chain'_singleton, and_true]
  norm_num [show resAt "aluminum" (.awg 12) = 2.659 from rfl,
    show resAt "aluminum" (.awg 10) = 1.671 from rfl,
    show resAt "aluminum" (.awg 8) = 1.052 from rfl,
    show resAt "aluminum" (.awg 6) = 0.661 from rfl,
    show resAt "aluminum" (.awg 4) = 0.416 from rfl,
    show resAt "aluminum" (.awg 3) = 0.330 from rfl,
    show resAt "aluminum" (.awg 2) = 0.262 from rfl,
    show resAt "aluminum" (.awg 1) = 0.208 from rfl,
    show resAt "aluminum" (.kcmil "1/0") = 0.165 from rfl,
    show resAt "aluminum" (.kcmil "2/0") = 0.131 from rfl,
    show resAt "aluminum" (.kcmil "3/0") = 0.104 from rfl,
    show resAt "aluminum" (.kcmil "4/0") = 0.082 from rfl]

/-- C4: along each material's escalation order, ampacity is non-decreasing
at every temperature index and resistance strictly decreases; within each
gauge's row, ampacity is non-decreasing in the temperature index. -/
theorem gauge_tables_monotone :
    ((get_gauge_options "copper").Pairwise (gaugeStep "copper") ∧
      ∀ g ∈ get_gauge_options "copper",
        ampAt "copper" g 0 ≤ ampAt "copper" g 1 ∧
        ampAt "copper" g 1 ≤ ampAt "copper" g 2) ∧
    ((get_gauge_options "aluminum").Pairwise (gaugeStep "aluminum") ∧
      ∀ g ∈ get_gauge_options "aluminum",
        ampAt "aluminum" g 0 ≤ ampAt "aluminum" g 1 ∧
        ampAt "aluminum" g 1 ≤ ampAt "aluminum" g 2) := by
  have hampcu : (get_gauge_options "copper").Pairwise (fun g1 g2 =>
      ∀ t : Fin 3, ampAt "copper" g1 t ≤ ampAt "copper" g2 t) := by decide
  have hampal : (get_gauge_options "aluminum").Pairwise (fun g1 g2 =>
      ∀ t : Fin 3, ampAt "aluminum" g1 t ≤ ampAt "aluminum" g2 t) := by decide
  refine ⟨⟨?_, by decide⟩, ⟨?_, by decide⟩⟩
  · exact List.Pairwise.imp (fun h => ⟨h.1, h.2⟩)
      (pairwise_and hampcu res_pairwise_cu)
  · exact List.Pairwise.imp (fun h => ⟨h.1, h.2⟩)
      (pairwise_and hampal res_pairwise_al)

/-- C10: the detailed thermal model is the simple model applied to the sum
of the stack's thermal resistances. -/
theorem junction_temp_detailed_eq_simple :
    ∀ Ta P_total Rth_jc Rth_cs Rth_sa : ℚ,
      junction_temp_detailed Ta P_total Rth_jc Rth_cs Rth_sa =
        junction_temp_simple Ta P_total (Rth_jc + Rth_cs + Rth_sa) :=
  fun _ _ _ _ _ => rfl
